import Mathlib

/-!
Verification of the SEPIA metric scoring engine and rank-correlation evaluator.

The Python sources (efficacyFunctions.py, compute_taub.py) are shallowly embedded
below.  Input logs are modelled at the record level: the external Event Log Reader
(file opening, gzip decompression, line splitting, float parsing) supplies
transmission records as a source string, a destination string and a rational time,
and contact records as five raw string fields.  Python dicts are modelled as
association lists in insertion order; Python floats are modelled as rationals.
-/

/-- A transmission-log record: raw (untrimmed) source and destination fields and
the already-parsed time.  Mirrors the unpacking `u,v,t = line.split(TAB_CHAR)`
followed by `float(t)`. -/
structure TRec where
  u : String
  v : String
  t : ℚ
deriving DecidableEq, Repr

/-- A contact-log record: the five raw tab-separated fields
`u,v,t,w,x = line.split(TAB_CHAR)`.  The named contact participants are the
second and third fields (v and t). -/
structure CRec where
  u : String
  v : String
  t : String
  w : String
  x : String
deriving DecidableEq, Repr

/-- Python str.strip(): remove leading and trailing whitespace. -/
def pyStrip (s : String) : String :=
  String.mk (((s.data.dropWhile Char.isWhitespace).reverse.dropWhile Char.isWhitespace).reverse)

/-- The time filter `(lowerBound > float(t)) | (float(t) > upperBound)` guarding
every transmission loop (a record is skipped when this is true).  The upper
bound is an Option: none models upperBound = float(inf), so the right disjunct
is then false. -/
def skipTime (lo : ℚ) (hi : Option ℚ) (t : ℚ) : Bool :=
  decide (lo > t) || (match hi with
    | none => false
    | some b => decide (t > b))

/-! ### Python dicts as insertion-ordered association lists -/

/-- Dict lookup, `m[k]` / `m.get(k)`: first entry with the given key. -/
def dlookup {α : Type} : List (String × α) → String → Option α
  | [], _ => none
  | kv :: rest, k => if kv.1 = k then some kv.2 else dlookup rest k

/-- Dict membership test, `k in m`. -/
def dmem {α : Type} (m : List (String × α)) (k : String) : Bool :=
  (dlookup m k).isSome

/-- The idiom `if k not in m: m[k] = v0`: insert a default at the end
(insertion order) when the key is absent. -/
def ensure {α : Type} (m : List (String × α)) (k : String) (v0 : α) : List (String × α) :=
  if dmem m k then m else m ++ [(k, v0)]

/-- In-place value update `m[k] = f(m[k])` of the (unique) entry holding key k;
no change when the key is absent. -/
def dupdate {α : Type} : List (String × α) → String → (α → α) → List (String × α)
  | [], _, _ => []
  | kv :: rest, k, f => if kv.1 = k then (kv.1, f kv.2) :: rest else kv :: dupdate rest k f

/-- The keys of a dict, in insertion order. -/
def dkeys {α : Type} (m : List (String × α)) : List String := m.map Prod.fst

/-- Well-formedness of the dict encoding: no key occurs twice.  Every dict built
by the embedded code satisfies this. -/
def UniqKeys {α : Type} (m : List (String × α)) : Prop := (dkeys m).Nodup

/-- Count lookup with the zero default callers of the score maps apply. -/
def lookup0 (m : List (String × ℕ)) (k : String) : ℕ := (dlookup m k).getD 0

/-! ### Metric 1: directTransmissions (efficacyFunctions.py lines 93-128) -/

/-- One iteration of the directTransmissions loop: strip the fields, skip the
record when out of the time range, skip when the stripped source is empty
(`if not u`) or the literal None, otherwise create the source's entry if needed
and increment it. -/
def directStep (lo : ℚ) (hi : Option ℚ) (numInfected : List (String × ℕ)) (r : TRec) :
    List (String × ℕ) :=
  let u := pyStrip r.u
  if skipTime lo hi r.t then numInfected
  else if u = ("") ∨ u = ("None") then numInfected
  else dupdate (ensure numInfected u 0) u (fun c => c + 1)

/-- Metric 1: count per individual of the in-range records they transmitted. -/
def directTransmissions (transmissionHist : List TRec) (lo : ℚ) (hi : Option ℚ) :
    List (String × ℕ) :=
  transmissionHist.foldl (directStep lo hi) []

/-- The direct-count of an individual as the spec states it: the number of
in-range records whose stripped source equals that individual and differs from
the sentinel None (spec 4.1 strategy 1 and the wording of claims C1/C2/C7). -/
def directCountSpec (log : List TRec) (lo : ℚ) (hi : Option ℚ) (p : String) : ℕ :=
  log.countP (fun r =>
    !skipTime lo hi r.t && decide (pyStrip r.u = p) && !decide (pyStrip r.u = ("None")))

/-- The direct-count formula amended with the non-emptiness condition the code
actually checks (`if not u or u == 'None'`). -/
def directCountStrict (log : List TRec) (lo : ℚ) (hi : Option ℚ) (p : String) : ℕ :=
  log.countP (fun r =>
    !skipTime lo hi r.t && decide (pyStrip r.u = p) &&
      !decide (pyStrip r.u = ("")) && !decide (pyStrip r.u = ("None")))

/-! ### Metric 4: totalTransmissions (efficacyFunctions.py lines 305-373) -/

/-- One iteration of the first totalTransmissions loop (building numInfected).
Identical to the loops of numContactInfect and of indirectTransmissions in its
guards: only records whose stripped source equals the literal None are skipped
(unlike directTransmissions there is no emptiness check). -/
def infectedStep (lo : ℚ) (hi : Option ℚ) (numInfected : List (String × ℕ)) (r : TRec) :
    List (String × ℕ) :=
  let u := pyStrip r.u
  if skipTime lo hi r.t then numInfected
  else if u = ("None") then numInfected
  else dupdate (ensure numInfected u 0) u (fun c => c + 1)

/-- The numInfected dict shared by totalTransmissions and numContactInfect. -/
def buildNumInfected (log : List TRec) (lo : ℚ) (hi : Option ℚ) : List (String × ℕ) :=
  log.foldl (infectedStep lo hi) []

/-- One iteration of the second totalTransmissions loop, building numIndirect:
for an in-range record with non-None source u, ensure u has an entry and, when
the stripped destination v is a key of numInfected, add numInfected[v] to it. -/
def indirTallyStep (numInfected : List (String × ℕ)) (lo : ℚ) (hi : Option ℚ)
    (numIndirect : List (String × ℕ)) (r : TRec) : List (String × ℕ) :=
  let u := pyStrip r.u
  let v := pyStrip r.v
  if skipTime lo hi r.t then numIndirect
  else if u = ("None") then numIndirect
  else
    let numIndirect := ensure numIndirect u 0
    if dmem numInfected v then dupdate numIndirect u (fun c => c + lookup0 numInfected v)
    else numIndirect

/-- The numIndirect dict of totalTransmissions: built and then discarded. -/
def numIndirectTally (numInfected : List (String × ℕ)) (log : List TRec) (lo : ℚ)
    (hi : Option ℚ) : List (String × ℕ) :=
  log.foldl (indirTallyStep numInfected lo hi) []

/-- One iteration of the final totalTransmissions loop over the keys of
numInfected.  The source reads:
    if person not in numTotal: numTotal[person] = 0
    if person in numInfected: numTotal[person] += numInfected[person]
    if person in numIndirect: numIndirect[person]
The last line is a bare expression statement whose value is discarded, so the
indirect tally never reaches numTotal. -/
def totalStep (numInfected : List (String × ℕ)) (numTotal : List (String × ℕ))
    (kv : String × ℕ) : List (String × ℕ) :=
  let person := kv.1
  let numTotal := ensure numTotal person 0
  if dmem numInfected person then
    dupdate numTotal person (fun c => c + lookup0 numInfected person)
  else numTotal

/-- Metric 4: intended as direct + one-hop-indirect, but the indirect tally is
discarded (see totalStep). -/
def totalTransmissions (log : List TRec) (lo : ℚ) (hi : Option ℚ) : List (String × ℕ) :=
  let numInfected := buildNumInfected log lo hi
  let _numIndirect := numIndirectTally numInfected log lo hi
  numInfected.foldl (totalStep numInfected) []

/-- The total-count formula as the spec claims it: direct-count plus, for every
in-range record whose source is the individual, the direct-count of that
record's destination (one addition per record). -/
def claimedTotalCount (log : List TRec) (lo : ℚ) (hi : Option ℚ) (p : String) : ℕ :=
  directCountSpec log lo hi p +
    ((log.filter (fun r => !skipTime lo hi r.t && decide (pyStrip r.u = p))).map
      (fun r => directCountSpec log lo hi (pyStrip r.v))).sum

/-! ### Metric 3: indirectTransmissions (efficacyFunctions.py lines 239-302) -/

/-- One iteration of the adjacency-building loop of indirectTransmissions: for
an in-range record whose stripped source u is not None, create empty out-lists
for both u and the stripped destination v if absent, then append v to u's
out-list. -/
def adjStep (lo : ℚ) (hi : Option ℚ) (direct : List (String × List String)) (r : TRec) :
    List (String × List String) :=
  let u := pyStrip r.u
  let v := pyStrip r.v
  if skipTime lo hi r.t then direct
  else if u = ("None") then direct
  else
    let direct := ensure direct u []
    let direct := ensure direct v []
    dupdate direct u (fun l => l ++ [v])

/-- The `direct` adjacency dict of indirectTransmissions: every in-range source
and destination (of a non-None-source record) gets an entry; each source's
value lists its destinations in log order. -/
def buildDirect (log : List TRec) (lo : ℚ) (hi : Option ℚ) : List (String × List String) :=
  log.foldl (adjStep lo hi) []

/-- The inner loop `for value in lastDegree[key]: thisDegree[key].extend(direct[value])`:
one extend step.  (Every listed value is a key of direct by construction, so the
getD default is never hit on reachable states.) -/
def extendOne (direct : List (String × List String)) (k : String)
    (thisDegree : List (String × List String)) (value : String) :
    List (String × List String) :=
  dupdate thisDegree k (fun l => l ++ (dlookup direct value).getD [])

/-- Processing one key of lastDegree when building thisDegree: ensure the key
has an entry, then extend it by the out-list of each of its frontier members. -/
def thisStep (direct : List (String × List String)) (thisDegree : List (String × List String))
    (kv : String × List String) : List (String × List String) :=
  kv.2.foldl (extendOne direct kv.1) (ensure thisDegree kv.1 [])

/-- The thisDegree dict built from lastDegree in one pass of the degree loop. -/
def buildThis (direct lastDegree : List (String × List String)) :
    List (String × List String) :=
  lastDegree.foldl (thisStep direct) []

/-- The second inner loop of the degree pass: add len(thisDegree[key]) to each
key's indirect count. -/
def countStep (numIndirect : List (String × ℕ)) (kv : String × List String) :
    List (String × ℕ) :=
  dupdate (ensure numIndirect kv.1 0) kv.1 (fun c => c + kv.2.length)

/-- Accumulate the sizes of this degree's frontiers into numIndirect. -/
def countUp (numIndirect : List (String × ℕ)) (thisDegree : List (String × List String)) :
    List (String × ℕ) :=
  thisDegree.foldl countStep numIndirect

/-- The loop `for n in range(1, numDegrees)` of indirectTransmissions, carrying
(numIndirect, lastDegree); the fuel argument is the number of remaining
iterations. -/
def indirIter (direct : List (String × List String)) :
    ℕ → List (String × ℕ) × List (String × List String) →
      List (String × ℕ) × List (String × List String)
  | 0, st => st
  | Nat.succ n, st =>
      let thisDegree := buildThis direct st.2
      indirIter direct n (countUp st.1 thisDegree, thisDegree)

/-- Metric 3: indirect transmissions to numDegrees degrees.  The loop
`range(1, numDegrees)` runs numDegrees - 1 times starting from
lastDegree = direct and numIndirect = empty. -/
def indirectTransmissions (log : List TRec) (numDegrees : ℕ) (lo : ℚ) (hi : Option ℚ) :
    List (String × ℕ) :=
  let direct := buildDirect log lo hi
  (indirIter direct (numDegrees - 1) ([], direct)).1

/-- The claimed score of claim C3: the number of an individual's direct
destinations, i.e. the size of their degree-1 frontier in the adjacency dict. -/
def degreeOneCount (log : List TRec) (lo : ℚ) (hi : Option ℚ) (p : String) : ℕ :=
  ((dlookup (buildDirect log lo hi) p).getD []).length

/-- The two-hop frontier size: the summed sizes of the out-lists of an
individual's direct destinations (with multiplicity). -/
def twoHopCount (log : List TRec) (lo : ℚ) (hi : Option ℚ) (p : String) : ℕ :=
  (((dlookup (buildDirect log lo hi) p).getD []).flatMap
    (fun v => (dlookup (buildDirect log lo hi) v).getD [])).length

/-! ### Metrics 5 and 6: numContacts, numContactInfect
(efficacyFunctions.py lines 376-419 and 422-491) -/

/-- The first four characters of a string, `line[0:4]`. -/
def strPrefix4 (s : String) : String := String.mk (s.data.take 4)

/-- The header test `line[0:4] == 'NODE'`.  At the record level this is a test
on the raw first field: a tab cannot occur inside a field and NODE contains no
tab, so the first four characters of the line match NODE exactly when the first
four characters of the first field do. -/
def contactIsHeader (r : CRec) : Bool := decide (strPrefix4 r.u = ("NODE"))

/-- One iteration of the numContacts loop: skip header lines and lines whose
stripped first field is the literal None; otherwise ensure entries for the
stripped second field and the raw third field, then increment both. -/
def contactStep (numberContacts : List (String × ℕ)) (r : CRec) : List (String × ℕ) :=
  if contactIsHeader r then numberContacts
  else
    let u := pyStrip r.u
    let v := pyStrip r.v
    if u = ("None") then numberContacts
    else
      let numberContacts := ensure numberContacts v 0
      let numberContacts := ensure numberContacts r.t 0
      let numberContacts := dupdate numberContacts v (fun c => c + 1)
      dupdate numberContacts r.t (fun c => c + 1)

/-- Metric 5: contact counts.  The time bounds are accepted and ignored. -/
def numContacts (contactNet : List CRec) (_lo : ℚ) (_hi : Option ℚ) : List (String × ℕ) :=
  contactNet.foldl contactStep []

/-- One iteration of the contact loop of numContactInfect: same skipping and
entry creation as numContacts, but each participant's count grows by the other
participant's numInfected count, and only when that other participant is a key
of numInfected. -/
def contactInfectStep (numInfected : List (String × ℕ))
    (numberContacts : List (String × ℕ)) (r : CRec) : List (String × ℕ) :=
  if contactIsHeader r then numberContacts
  else
    let u := pyStrip r.u
    let v := pyStrip r.v
    if u = ("None") then numberContacts
    else
      let numberContacts := ensure numberContacts v 0
      let numberContacts := ensure numberContacts r.t 0
      let numberContacts :=
        if dmem numInfected r.t then
          dupdate numberContacts v (fun c => c + lookup0 numInfected r.t)
        else numberContacts
      if dmem numInfected v then
        dupdate numberContacts r.t (fun c => c + lookup0 numInfected v)
      else numberContacts

/-- Metric 6: contact counts weighted by the direct infection counts taken from
the transmission log (whose loop is identical to totalTransmissions' first
loop).  The time bounds only filter the transmission log. -/
def numContactInfect (transmissionHist : List TRec) (contactNet : List CRec)
    (lo : ℚ) (hi : Option ℚ) : List (String × ℕ) :=
  let numInfected := buildNumInfected transmissionHist lo hi
  contactNet.foldl (contactInfectStep numInfected) []

/-! ### Rank Matcher: matchInfectorCounts (efficacyFunctions.py lines 494-524) -/

/-- Python int() / the conversion the %d format applies to a float: truncation
toward zero. -/
def pyInt (q : ℚ) : ℤ := if 0 ≤ q then ⌊q⌋ else ⌈q⌉

/-- The %f format: the printed value keeps six decimal places (rounding;
Python rounds the underlying binary float, modelled here as rounding the
rational). -/
def fmt6 (q : ℚ) : ℚ := ((round (q * 1000000) : ℤ) : ℚ) / 1000000

/-- The Rank Matcher: one output line per input line, in input order.  The
written value is the dict value formatted with %f for metric 2 and with %d
(integer truncation) otherwise, and the literal 0 when the stripped identifier
is not a key. -/
def matchInfectorCounts : List (String × ℚ) → List String → ℤ → List (String × ℚ)
  | _, [], _ => []
  | infectionsDict, line :: rest, metric =>
      (match dlookup infectionsDict (pyStrip line) with
       | some c =>
           if metric = 2 then (pyStrip line, fmt6 c) else (pyStrip line, ((pyInt c : ℤ) : ℚ))
       | none => (pyStrip line, 0)) :: matchInfectorCounts infectionsDict rest metric

/-- The rational 5/2, given by its reduced fraction so that kernel evaluation
does not need to unfold rational division. -/
def twoPointFive : ℚ := ⟨5, 2, by decide, by decide⟩

/-! ### Correlation Evaluator: calculateTauB (compute_taub.py lines 12-40) -/

/-- The error the spec says an empty ordering should raise.  The embedded
codomain includes it so that the absence of any such failure in the code is a
provable fact rather than a typing accident. -/
inductive TauBError where
  | emptyInput
deriving DecidableEq

/-- The ideal ordering calculateTauB builds: list(range(n, 0, -1)) when
reverse is false, list(range(n)) when it is true. -/
def optimalOrderOf (n : ℕ) (reverse : Bool) : List ℚ :=
  if reverse = false then (List.range n).map (fun i => ((n : ℚ) - (i : ℚ)))
  else (List.range n).map (fun i => ((i : ℕ) : ℚ))

/-- calculateTauB: build the ideal ordering from the input length, hand both
sequences to scipy.stats.kendalltau (abstracted as a parameter, since it is an
external library call), and write the resulting pair.  The code contains no
emptiness or other error check, so the result is always ok. -/
def calculateTauB {R : Type} (kendalltau : List ℚ → List ℚ → R) (userOrder : List ℚ)
    (reverse : Bool) : Except TauBError R :=
  let optimalOrder := optimalOrderOf userOrder.length reverse
  Except.ok (kendalltau optimalOrder userOrder)

/-- Recognizer for the EmptyInput failure the claim expects. -/
def isEmptyInputErr {R : Type} : Except TauBError R → Bool
  | Except.error TauBError.emptyInput => true
  | _ => false

/-- A concrete stand-in for scipy.stats.kendalltau (which on empty inputs
returns a nan pair rather than raising). -/
def ktStub : List ℚ → List ℚ → ℚ × ℚ := fun _ _ => (0, 0)

/-! ### Metric 2: bestfitGraph (efficacyFunctions.py lines 131-236) -/

/-- The initial latestInfectionTime: -1 when no upper bound was set
(upperBound == float(inf)), otherwise the upper bound itself. -/
def bfInit : Option ℚ → ℚ
  | none => -1
  | some b => b

/-- One iteration of the bestfitGraph loop over the transmission log, carrying
(timesInfected, latestInfectionTime).  An in-range record with non-None
stripped source appends its time to the source's list; when no upper bound was
set and the time exceeds the running latest, the latest is updated.  Note the
None check precedes the latest update, so None-source records never move it. -/
def bfStep (lo : ℚ) (hi : Option ℚ) (st : List (String × List ℚ) × ℚ) (r : TRec) :
    List (String × List ℚ) × ℚ :=
  let u := pyStrip r.u
  if skipTime lo hi r.t then st
  else if u = ("None") then st
  else
    let ti := dupdate (ensure st.1 u []) u (fun l => l ++ [r.t])
    let latest := if hi = none ∧ r.t > st.2 then r.t else st.2
    (ti, latest)

/-- The first bestfitGraph loop: build timesInfected and latestInfectionTime. -/
def bfScan (log : List TRec) (lo : ℚ) (hi : Option ℚ) : List (String × List ℚ) × ℚ :=
  log.foldl (bfStep lo hi) ([], bfInit hi)

/-- The timesInfected dict: each transmitter's in-range times in log order. -/
def bfTimes (log : List TRec) (lo : ℚ) (hi : Option ℚ) : List (String × List ℚ) :=
  (bfScan log lo hi).1

/-- The latestInfectionTime after the scan. -/
def bfLatest (log : List TRec) (lo : ℚ) (hi : Option ℚ) : ℚ :=
  (bfScan log lo hi).2

/-- The endpoint pairs handed to np.linspace inside the per-individual loop,
from the second segment on: (times[i], times[i+1]) for consecutive times and
finally (times[-1], latestInfectionTime). -/
def segsFrom (latest : ℚ) : ℚ → List ℚ → List (ℚ × ℚ)
  | t, [] => [(t, latest)]
  | t, t2 :: rest => (t, t2) :: segsFrom latest t2 rest

/-- All sampled segments of one individual: the leading segment
(lowerBound, times[0]) followed by the inter-event segments and the final
segment ending at latestInfectionTime. -/
def segsOf (lo latest : ℚ) : List ℚ → List (ℚ × ℚ)
  | [] => []
  | t0 :: rest => (lo, t0) :: segsFrom latest t0 rest

/-- The sampled segments bestfitGraph uses for an individual (empty when the
individual never transmitted in range). -/
def bfSegments (log : List TRec) (lo : ℚ) (hi : Option ℚ) (u : String) : List (ℚ × ℚ) :=
  match dlookup (bfTimes log lo hi) u with
  | some ts => segsOf lo (bfLatest log lo hi) ts
  | none => []

/-- The slope stats.linregress returns, abstracted over the deterministic data
(lower bound, the individual's times, the latest time, points per step):
an external scipy call, and the sampled x array moreover starts with one
np.empty(1) uninitialized coordinate, so the slope is not a function of the
log alone. -/
def SlopeOracle : Type := ℚ → List ℚ → ℚ → ℕ → ℚ

/-- Metric 2: one slope per transmitter (numPointsPerStep 0 falls back to the
default DEF_POINTS_PER_STEP = 10). -/
def bestfitGraph (slopeO : SlopeOracle) (log : List TRec) (lo : ℚ) (hi : Option ℚ)
    (numPointsPerStep : ℕ) : List (String × ℚ) :=
  let npts := if numPointsPerStep = 0 then 10 else numPointsPerStep
  (bfTimes log lo hi).map (fun kv => (kv.1, slopeO lo kv.2 (bfLatest log lo hi) npts))

/-- What the latest time actually is when no upper bound was set: the maximum
of the in-range times of records with non-None stripped source, floored at the
initial value -1. -/
def specLatest (log : List TRec) (lo : ℚ) : ℚ :=
  ((log.filter (fun r => !skipTime lo none r.t && !decide (pyStrip r.u = ("None")))).map
    (fun r => r.t)).foldl max (-1)

/-- The endpoint of every final segment: the explicit upper bound when one was
given, otherwise specLatest. -/
def upperEndpoint (log : List TRec) (lo : ℚ) (hi : Option ℚ) : ℚ :=
  match hi with
  | some b => b
  | none => specLatest log lo

/-- The claimed final endpoint of C9: the greatest in-bounds transmission time
across the whole log (no source filtering). -/
def claimGlobalLatest (log : List TRec) (lo : ℚ) (hi : Option ℚ) : Option ℚ :=
  ((log.filter (fun r => !skipTime lo hi r.t)).map (fun r => r.t)).max?

/-! ### Dispatch and error checking: pairCounts (efficacyFunctions.py lines 20-90) -/

/-- The sub-parameter encoded in the fractional digits of the float selector:
`float(str(metric).split(".")[1])` (the while loop multiplying by 10 never
runs, since a digit string already parses to an integral float), then int().
For a selector with a finite decimal representation - every Python float
prints one - this is the fractional part scaled by the least power of ten
clearing its denominator. -/
def pyFracDigits (q : ℚ) : ℕ :=
  let f : ℚ := q - ((⌊q⌋ : ℤ) : ℚ)
  let k : ℕ := max (Nat.maxPowDiv 2 f.den) (Nat.maxPowDiv 5 f.den)
  (f * (10 : ℚ) ^ k).num.toNat

/-- The failures pairCounts (or the file opening it triggers) can raise:
the two explicit ValueError checks for missing inputs, the final ValueError
for an unknown selector, and the FileNotFoundError that open('') raises inside
opengzip when a missing file slips past the checks. -/
inductive PCErr where
  | missingTransmission (metric : ℚ)
  | missingContact (metric : ℚ)
  | invalidMetric (metric : ℚ)
  | fileNotFound
deriving DecidableEq

/-- The two value shapes pairCounts can return: integer count maps and the
float slope map of metric 2. -/
inductive PCOut where
  | counts (m : List (String × ℕ))
  | slopes (m : List (String × ℚ))
deriving DecidableEq

/-- pairCounts: the two missing-input checks (`metric in [1,2,3,4,6]`,
`metric in [5,6]` - numeric equality against the integer constants, so a
fractional selector never matches), then the dispatch chain
(`metric == 1`, `int(metric) == 2`, `int(metric) == 3`, `metric == 4`,
`metric == 5`, `metric == 6`, else ValueError).  A missing log argument
('' in the source, none here) that reaches a scoring branch fails in
opengzip's open call. -/
def pairCounts (slopeO : SlopeOracle) (transmissionHist : Option (List TRec))
    (contactNet : Option (List CRec)) (lowerBound : ℚ) (upperBound : Option ℚ)
    (metric : ℚ) : Except PCErr PCOut :=
  if (metric = 1 ∨ metric = 2 ∨ metric = 3 ∨ metric = 4 ∨ metric = 6) ∧
      transmissionHist = none then
    Except.error (PCErr.missingTransmission metric)
  else if (metric = 5 ∨ metric = 6) ∧ contactNet = none then
    Except.error (PCErr.missingContact metric)
  else if metric = 1 then
    match transmissionHist with
    | some log => Except.ok (PCOut.counts (directTransmissions log lowerBound upperBound))
    | none => Except.error PCErr.fileNotFound
  else if pyInt metric = 2 then
    let numPointsPerStep := pyFracDigits metric
    match transmissionHist with
    | some log =>
        Except.ok (PCOut.slopes (bestfitGraph slopeO log lowerBound upperBound numPointsPerStep))
    | none => Except.error PCErr.fileNotFound
  else if pyInt metric = 3 then
    let numDegrees := pyFracDigits metric
    let numDegrees := if numDegrees < 2 then 2 else numDegrees
    match transmissionHist with
    | some log =>
        Except.ok (PCOut.counts (indirectTransmissions log numDegrees lowerBound upperBound))
    | none => Except.error PCErr.fileNotFound
  else if metric = 4 then
    match transmissionHist with
    | some log => Except.ok (PCOut.counts (totalTransmissions log lowerBound upperBound))
    | none => Except.error PCErr.fileNotFound
  else if metric = 5 then
    match contactNet with
    | some c => Except.ok (PCOut.counts (numContacts c lowerBound upperBound))
    | none => Except.error PCErr.fileNotFound
  else if metric = 6 then
    match transmissionHist, contactNet with
    | some t, some c => Except.ok (PCOut.counts (numContactInfect t c lowerBound upperBound))
    | _, _ => Except.error PCErr.fileNotFound
  else Except.error (PCErr.invalidMetric metric)

instance {ε α : Type} [DecidableEq ε] [DecidableEq α] : DecidableEq (Except ε α) := fun a b =>
  match a, b with
  | Except.error x, Except.error y =>
      if h : x = y then isTrue (h ▸ rfl) else isFalse (fun hh => h (Except.error.inj hh))
  | Except.error _, Except.ok _ => isFalse (fun hh => Except.noConfusion hh)
  | Except.ok _, Except.error _ => isFalse (fun hh => Except.noConfusion hh)
  | Except.ok x, Except.ok y =>
      if h : x = y then isTrue (h ▸ rfl) else isFalse (fun hh => h (Except.ok.inj hh))

/-- Recognizer for the MissingInput failures of claim C6. -/
def isMissingInputErr : Except PCErr PCOut → Bool
  | Except.error (PCErr.missingTransmission _) => true
  | Except.error (PCErr.missingContact _) => true
  | _ => false

/-- A concrete slope oracle for closed evaluations. -/
def stubSlope : SlopeOracle := fun _ _ _ _ => 0

/-! ### Theorems -/

/-! ### Basic dict lemmas -/

theorem dlookup_nil {α : Type} (k : String) : dlookup ([] : List (String × α)) k = none := rfl

theorem dlookup_cons {α : Type} (kv : String × α) (m : List (String × α)) (k : String) :
    dlookup (kv :: m) k = if kv.1 = k then some kv.2 else dlookup m k := rfl

theorem dlookup_append {α : Type} (m n : List (String × α)) (k : String) :
    dlookup (m ++ n) k = match dlookup m k with
      | some v => some v
      | none => dlookup n k := by
  induction m with
  | nil => simp [dlookup]
  | cons kv rest ih =>
      by_cases h : kv.1 = k <;> simp [dlookup, h, ih]

theorem dlookup_dupdate {α : Type} (m : List (String × α)) (k p : String) (f : α → α) :
    dlookup (dupdate m k f) p = if k = p then (dlookup m p).map f else dlookup m p := by
  induction m with
  | nil => simp [dupdate, dlookup]
  | cons kv rest ih =>
      unfold dupdate
      by_cases hk : kv.1 = k
      · rw [if_pos hk]
        by_cases hkp : k = p
        · subst hkp
          simp [dlookup, hk]
        · have hne : ¬ kv.1 = p := fun h => hkp (hk.symm.trans h)
          simp [dlookup, hne, hkp]
      · rw [if_neg hk]
        by_cases hp : kv.1 = p
        · have hkp : ¬ k = p := fun h => hk (hp.trans h.symm)
          simp [dlookup, hp, hkp]
        · simp [dlookup, hp, ih]

theorem dlookup_ensure {α : Type} (m : List (String × α)) (k p : String) (v0 : α) :
    dlookup (ensure m k v0) p =
      if k = p then some ((dlookup m k).getD v0) else dlookup m p := by
  unfold ensure dmem
  by_cases hm : (dlookup m k).isSome
  · rw [if_pos hm]
    rcases Option.isSome_iff_exists.mp hm with ⟨v, hv⟩
    by_cases hkp : k = p
    · subst hkp; simp [hv]
    · simp [hkp]
  · rw [if_neg hm]
    have hk : dlookup m k = none := Option.not_isSome_iff_eq_none.mp hm
    rw [dlookup_append]
    by_cases hkp : k = p
    · subst hkp; simp [hk, dlookup]
    · cases hp : dlookup m p with
      | some v => simp [hp, hkp]
      | none => simp [hp, dlookup, hkp]

/-- Lookup after the ensure-then-increment idiom
`if k not in m: m[k] = 0` followed by `m[k] += n`. -/
theorem dlookup_bump (m : List (String × ℕ)) (k p : String) (n : ℕ) :
    dlookup (dupdate (ensure m k 0) k (fun c => c + n)) p =
      if k = p then some ((dlookup m k).getD 0 + n) else dlookup m p := by
  rw [dlookup_dupdate]
  by_cases hkp : k = p
  · subst hkp; simp [dlookup_ensure]
  · simp [hkp, dlookup_ensure]

theorem lookup0_bump (m : List (String × ℕ)) (k p : String) (n : ℕ) :
    lookup0 (dupdate (ensure m k 0) k (fun c => c + n)) p =
      lookup0 m p + if k = p then n else 0 := by
  unfold lookup0
  rw [dlookup_bump]
  by_cases hkp : k = p
  · subst hkp; simp [lookup0]
  · simp [hkp]

theorem dmem_dupdate {α : Type} (m : List (String × α)) (k p : String) (f : α → α) :
    dmem (dupdate m k f) p = dmem m p := by
  unfold dmem
  rw [dlookup_dupdate]
  by_cases hkp : k = p
  · subst hkp
    cases h : dlookup m k <;> simp [h]
  · simp [hkp]

theorem dmem_ensure {α : Type} (m : List (String × α)) (k p : String) (v0 : α) :
    dmem (ensure m k v0) p = (dmem m p || decide (k = p)) := by
  unfold dmem
  rw [dlookup_ensure]
  by_cases hkp : k = p
  · subst hkp; simp
  · simp [hkp]

theorem dmem_iff_mem_dkeys {α : Type} (m : List (String × α)) (k : String) :
    dmem m k = true ↔ k ∈ dkeys m := by
  induction m with
  | nil => simp [dmem, dlookup, dkeys]
  | cons kv rest ih =>
      by_cases h : kv.1 = k
      · simp [dmem, dlookup, dkeys, h]
      · simp only [dmem, dlookup, dkeys, List.map_cons, List.mem_cons] at ih ⊢
        rw [if_neg h, ih]
        constructor
        · intro hh; exact Or.inr hh
        · rintro (hh | hh)
          · exact absurd hh.symm h
          · exact hh

theorem dkeys_dupdate {α : Type} (m : List (String × α)) (k : String) (f : α → α) :
    dkeys (dupdate m k f) = dkeys m := by
  induction m with
  | nil => rfl
  | cons kv rest ih =>
      by_cases h : kv.1 = k <;> simp [dupdate, dkeys, h] at ih ⊢
      · exact ih

theorem uniq_dupdate {α : Type} (m : List (String × α)) (k : String) (f : α → α)
    (h : UniqKeys m) : UniqKeys (dupdate m k f) := by
  unfold UniqKeys
  rw [dkeys_dupdate]
  exact h

theorem uniq_ensure {α : Type} (m : List (String × α)) (k : String) (v0 : α)
    (h : UniqKeys m) : UniqKeys (ensure m k v0) := by
  unfold ensure
  by_cases hm : dmem m k
  · rw [if_pos hm]; exact h
  · rw [if_neg hm]
    have hk : k ∉ dkeys m := fun hmem => hm ((dmem_iff_mem_dkeys m k).mpr hmem)
    unfold UniqKeys dkeys at h hk ⊢
    rw [List.map_append]
    simp only [List.map_cons, List.map_nil]
    refine h.append (List.nodup_singleton k) ?_
    intro a ha hb
    simp only [List.mem_singleton] at hb
    subst hb
    exact hk ha

theorem uniq_foldl {α β : Type} (step : List (String × α) → β → List (String × α))
    (hstep : ∀ a b, UniqKeys a → UniqKeys (step a b)) :
    ∀ (l : List β) (init : List (String × α)), UniqKeys init → UniqKeys (l.foldl step init)
  | [], _, h => h
  | b :: rest, init, h => uniq_foldl step hstep rest (step init b) (hstep init b h)

theorem dupdate_id {α : Type} (m : List (String × α)) (k : String) :
    dupdate m k (fun v => v) = m := by
  induction m with
  | nil => rfl
  | cons kv rest ih =>
      by_cases h : kv.1 = k
      · unfold dupdate
        rw [if_pos h]
      · unfold dupdate
        rw [if_neg h, ih]

theorem foldl_fun_ext {α β : Type} (f g : α → β → α) (l : List β) (init : α)
    (h : ∀ a b, f a b = g a b) : l.foldl f init = l.foldl g init := by
  induction l generalizing init with
  | nil => rfl
  | cons b rest ih => rw [List.foldl_cons, List.foldl_cons, h, ih]

theorem directStep_lookup0 (lo : ℚ) (hi : Option ℚ) (m : List (String × ℕ)) (r : TRec)
    (p : String) :
    lookup0 (directStep lo hi m r) p = lookup0 m p +
      if (!skipTime lo hi r.t && decide (pyStrip r.u = p) &&
          !decide (pyStrip r.u = ("")) && !decide (pyStrip r.u = ("None"))) then 1 else 0 := by
  unfold directStep
  by_cases hs : skipTime lo hi r.t
  · simp [hs]
  · by_cases hg : pyStrip r.u = ("") ∨ pyStrip r.u = ("None")
    · rcases hg with hg | hg <;> simp [hs, hg]
    · push_neg at hg
      rw [if_neg hs, if_neg (not_or.mpr hg), lookup0_bump]
      by_cases hp : pyStrip r.u = p
      · rw [hp] at hg
        simp [hs, hg.1, hg.2, hp]
      · simp [hs, hg.1, hg.2, hp]

theorem direct_fold_lookup0 (log : List TRec) (lo : ℚ) (hi : Option ℚ) (p : String) :
    ∀ m, lookup0 (log.foldl (directStep lo hi) m) p = lookup0 m p + directCountStrict log lo hi p := by
  induction log with
  | nil => intro m; simp [directCountStrict]
  | cons r rest ih =>
      intro m
      rw [List.foldl_cons, ih, directStep_lookup0]
      unfold directCountStrict
      rw [List.countP_cons]
      unfold directCountStrict at ih
      omega

theorem infectedStep_lookup0 (lo : ℚ) (hi : Option ℚ) (m : List (String × ℕ)) (r : TRec)
    (p : String) :
    lookup0 (infectedStep lo hi m r) p = lookup0 m p +
      if (!skipTime lo hi r.t && decide (pyStrip r.u = p) &&
          !decide (pyStrip r.u = ("None"))) then 1 else 0 := by
  unfold infectedStep
  by_cases hs : skipTime lo hi r.t
  · simp [hs]
  · by_cases hg : pyStrip r.u = ("None")
    · simp [hs, hg]
    · rw [if_neg hs, if_neg hg, lookup0_bump]
      by_cases hp : pyStrip r.u = p
      · rw [hp] at hg
        simp [hs, hg, hp]
      · simp [hs, hg, hp]

theorem infected_fold_lookup0 (log : List TRec) (lo : ℚ) (hi : Option ℚ) (p : String) :
    ∀ m, lookup0 (log.foldl (infectedStep lo hi) m) p = lookup0 m p + directCountSpec log lo hi p := by
  induction log with
  | nil => intro m; simp [directCountSpec]
  | cons r rest ih =>
      intro m
      rw [List.foldl_cons, ih, infectedStep_lookup0]
      unfold directCountSpec
      rw [List.countP_cons]
      unfold directCountSpec at ih
      omega

theorem buildNumInfected_lookup0 (log : List TRec) (lo : ℚ) (hi : Option ℚ) (p : String) :
    lookup0 (buildNumInfected log lo hi) p = directCountSpec log lo hi p := by
  unfold buildNumInfected
  rw [infected_fold_lookup0]
  simp [lookup0, dlookup]

theorem uniq_buildNumInfected (log : List TRec) (lo : ℚ) (hi : Option ℚ) :
    UniqKeys (buildNumInfected log lo hi) := by
  unfold buildNumInfected
  apply uniq_foldl
  · intro a r ha
    unfold infectedStep
    by_cases hs : skipTime lo hi r.t
    · simpa [hs] using ha
    · by_cases hg : pyStrip r.u = ("None")
      · simpa [hs, hg] using ha
      · rw [if_neg hs, if_neg hg]
        exact uniq_dupdate _ _ _ (uniq_ensure _ _ _ ha)
  · simp [UniqKeys, dkeys]

/-- Generic lemma for loops of the form
`for kv in l: ensure acc kv.1 d0; acc[kv.1] = G kv (acc[kv.1])`
when each key of l is fresh (l has unique keys and is disjoint from acc):
each key is touched exactly once, so its final value is G kv d0. -/
theorem perKeyFold {β γ : Type} (G : String × β → γ → γ) (d0 : γ) (l : List (String × β)) :
    ∀ (acc : List (String × γ)) (p : String), UniqKeys l →
    (∀ kv ∈ l, dlookup acc kv.1 = none) →
    dlookup (l.foldl (fun a kv => dupdate (ensure a kv.1 d0) kv.1 (G kv)) acc) p =
      match dlookup l p with
      | some b => some (G (p, b) d0)
      | none => dlookup acc p := by
  induction l with
  | nil => intro acc p _ _; simp [dlookup]
  | cons kv rest ih =>
      intro acc p hu hd
      rw [List.foldl_cons]
      have hkvacc : dlookup acc kv.1 = none := hd kv (List.mem_cons_self kv rest)
      have hstep : ∀ q, dlookup (dupdate (ensure acc kv.1 d0) kv.1 (G kv)) q =
          if kv.1 = q then some (G kv d0) else dlookup acc q := by
        intro q
        rw [dlookup_dupdate]
        by_cases h : kv.1 = q
        · subst h; simp [dlookup_ensure, hkvacc]
        · simp [h, dlookup_ensure]
      have hu1 : kv.1 ∉ dkeys rest := by
        have := hu
        unfold UniqKeys dkeys at this
        simp only [List.map_cons, List.nodup_cons] at this
        exact this.1
      have hu2 : UniqKeys rest := by
        have := hu
        unfold UniqKeys dkeys at this ⊢
        simp only [List.map_cons, List.nodup_cons] at this
        exact this.2
      have hd2 : ∀ kv2 ∈ rest, dlookup (dupdate (ensure acc kv.1 d0) kv.1 (G kv)) kv2.1 = none := by
        intro kv2 h2
        rw [hstep]
        have hne : ¬ kv.1 = kv2.1 := by
          intro h
          exact hu1 (h ▸ List.mem_map_of_mem Prod.fst h2)
        rw [if_neg hne]
        exact hd kv2 (List.mem_cons_of_mem kv h2)
      rw [ih _ p hu2 hd2]
      rw [dlookup_cons]
      by_cases hkp : kv.1 = p
      · have hrest : dlookup rest p = none := by
          cases h : dlookup rest p with
          | none => rfl
          | some v =>
              exfalso
              apply hu1
              rw [hkp]
              exact (dmem_iff_mem_dkeys rest p).mp (by simp [dmem, h])
        rw [hrest, if_pos hkp, hstep, if_pos hkp]
        subst hkp
        rfl
      · rw [if_neg hkp]
        cases h : dlookup rest p with
        | none => simp [hstep, hkp]
        | some v => simp

theorem totalStep_shape (d a : List (String × ℕ)) (kv : String × ℕ) :
    totalStep d a kv = dupdate (ensure a kv.1 0) kv.1
      (fun c => if dmem d kv.1 then c + lookup0 d kv.1 else c) := by
  unfold totalStep
  by_cases h : dmem d kv.1
  · simp only [h, if_true]
  · simp only [h, Bool.false_eq_true, if_false]
    rw [dupdate_id]

theorem totalTransmissions_lookup0 (log : List TRec) (lo : ℚ) (hi : Option ℚ) (p : String) :
    lookup0 (totalTransmissions log lo hi) p = lookup0 (buildNumInfected log lo hi) p := by
  show lookup0 ((buildNumInfected log lo hi).foldl (totalStep (buildNumInfected log lo hi)) []) p
      = lookup0 (buildNumInfected log lo hi) p
  set d := buildNumInfected log lo hi with hd
  have huniq : UniqKeys d := hd ▸ uniq_buildNumInfected log lo hi
  have hfold : d.foldl (totalStep d) [] =
      d.foldl (fun a kv => dupdate (ensure a kv.1 0) kv.1
        (fun c => if dmem d kv.1 then c + lookup0 d kv.1 else c)) [] :=
    foldl_fun_ext _ _ _ _ (fun a kv => totalStep_shape d a kv)
  rw [hfold]
  unfold lookup0
  rw [perKeyFold (fun kv c => if dmem d kv.1 then c + (dlookup d kv.1).getD 0 else c) 0 d [] p
    huniq (fun kv _ => rfl)]
  cases h : dlookup d p with
  | none => simp [dlookup]
  | some b =>
      have hm : dmem d p = true := by simp [dmem, h]
      simp [hm, h]

/-- Claim C7, amended: the direct-count score of an individual equals the number
of in-range records whose stripped source equals that individual, is non-empty,
and differs from the sentinel None; the destination plays no role (the counting
predicate never inspects it). -/
theorem C7_direct_count_amended (log : List TRec) (lo : ℚ) (hi : Option ℚ) (p : String) :
    lookup0 (directTransmissions log lo hi) p = directCountStrict log lo hi p := by
  unfold directTransmissions
  rw [direct_fold_lookup0]
  simp [lookup0, dlookup]

/-- Claim C7, counterexample: a record whose source field is the empty string is
skipped by the code (score 0 with the zero default), yet the claimed formula
(which only excludes the None sentinel) counts it. -/
theorem C7_counterexample :
    lookup0 (directTransmissions [⟨"", "B", 1⟩] 0 (some 10)) ("") = 0 ∧
      directCountSpec [⟨"", "B", 1⟩] 0 (some 10) ("") = 1 := by
  constructor <;> decide

/-- Claim C2: for every transmission log and bounds, the score returned by the
total-count metric for any individual equals exactly that individual's
direct-count (the indirect tally is computed and discarded). -/
theorem C2_total_equals_direct (log : List TRec) (lo : ℚ) (hi : Option ℚ) (p : String) :
    lookup0 (totalTransmissions log lo hi) p = directCountSpec log lo hi p := by
  rw [totalTransmissions_lookup0, buildNumInfected_lookup0]

/-- Claim C1, code evaluation at the failing input: on the log A->B at time 1,
B->C at time 2 with bounds [0, 10], the code returns total-count 1 for A while
the claimed formula direct(A) + direct(B) yields 2 (the bare statement
`numIndirect[person]` in the source discards the indirect tally). -/
theorem C1_total_eval :
    lookup0 (totalTransmissions [⟨"A", "B", 1⟩, ⟨"B", "C", 2⟩] 0 (some 10)) ("A") = 1 ∧
      claimedTotalCount [⟨"A", "B", 1⟩, ⟨"B", "C", 2⟩] 0 (some 10) ("A") = 2 := by
  constructor <;> decide

theorem dupdate_dupdate {α : Type} (m : List (String × α)) (k : String) (f g : α → α) :
    dupdate (dupdate m k f) k g = dupdate m k (fun v => g (f v)) := by
  induction m with
  | nil => rfl
  | cons kv rest ih =>
      by_cases h : kv.1 = k
      · simp [dupdate, h]
      · simp [dupdate, h, ih]

theorem extendOne_fold (direct : List (String × List String)) (k : String) (vs : List String) :
    ∀ td, vs.foldl (extendOne direct k) td =
      dupdate td k (fun l => l ++ vs.flatMap (fun v => (dlookup direct v).getD [])) := by
  induction vs with
  | nil =>
      intro td
      simp only [List.foldl_nil, List.flatMap_nil]
      have he : (fun l : List String => l ++ []) = fun l => l := funext (fun l => List.append_nil l)
      rw [he, dupdate_id]
  | cons v rest ih =>
      intro td
      rw [List.foldl_cons]
      show rest.foldl (extendOne direct k) (extendOne direct k td v) = _
      rw [ih]
      unfold extendOne
      rw [dupdate_dupdate]
      congr 1
      funext l
      simp [List.append_assoc]

theorem thisStep_shape (direct td : List (String × List String)) (kv : String × List String) :
    thisStep direct td kv = dupdate (ensure td kv.1 []) kv.1
      (fun l => l ++ kv.2.flatMap (fun v => (dlookup direct v).getD [])) := by
  unfold thisStep
  rw [extendOne_fold]

theorem uniq_buildDirect (log : List TRec) (lo : ℚ) (hi : Option ℚ) :
    UniqKeys (buildDirect log lo hi) := by
  unfold buildDirect
  apply uniq_foldl
  · intro a r ha
    unfold adjStep
    by_cases hs : skipTime lo hi r.t
    · simpa [hs] using ha
    · by_cases hg : pyStrip r.u = ("None")
      · simpa [hs, hg] using ha
      · rw [if_neg hs, if_neg hg]
        exact uniq_dupdate _ _ _ (uniq_ensure _ _ _ (uniq_ensure _ _ _ ha))
  · simp [UniqKeys, dkeys]

theorem uniq_buildThis (direct last : List (String × List String)) :
    UniqKeys (buildThis direct last) := by
  unfold buildThis
  apply uniq_foldl
  · intro a kv ha
    rw [thisStep_shape]
    exact uniq_dupdate _ _ _ (uniq_ensure _ _ _ ha)
  · simp [UniqKeys, dkeys]

theorem buildThis_lookup (direct last : List (String × List String)) (p : String)
    (hu : UniqKeys last) :
    dlookup (buildThis direct last) p =
      match dlookup last p with
      | some vs => some (vs.flatMap (fun v => (dlookup direct v).getD []))
      | none => none := by
  unfold buildThis
  have hfold : last.foldl (thisStep direct) [] =
      last.foldl (fun a kv => dupdate (ensure a kv.1 []) kv.1
        (fun l => l ++ kv.2.flatMap (fun v => (dlookup direct v).getD []))) [] :=
    foldl_fun_ext _ _ _ _ (fun a kv => thisStep_shape direct a kv)
  rw [hfold,
    perKeyFold (fun kv l => l ++ kv.2.flatMap (fun v => (dlookup direct v).getD [])) [] last []
      p hu (fun kv _ => rfl)]
  cases h : dlookup last p with
  | none => simp [dlookup]
  | some vs => simp

theorem countUp_nil_lookup (td : List (String × List String)) (p : String)
    (hu : UniqKeys td) :
    dlookup (countUp [] td) p =
      match dlookup td p with
      | some vs => some vs.length
      | none => none := by
  unfold countUp
  have hfold : td.foldl countStep [] =
      td.foldl (fun a kv => dupdate (ensure a kv.1 0) kv.1 (fun c => c + kv.2.length)) [] :=
    foldl_fun_ext _ _ _ _ (fun a kv => rfl)
  rw [hfold, perKeyFold (fun kv c => c + kv.2.length) 0 td [] p hu (fun kv _ => rfl)]
  cases h : dlookup td p with
  | none => simp [dlookup]
  | some vs => simp

/-- Claim C3, amended: invoked with degrees = 2, the indirect-count metric
assigns each individual the size of their degree-2 frontier: the summed sizes
(with multiplicity) of the out-lists of their direct destinations, not the size
of their degree-1 frontier. -/
theorem C3_indirect_two_hops (log : List TRec) (lo : ℚ) (hi : Option ℚ) (p : String) :
    lookup0 (indirectTransmissions log 2 lo hi) p = twoHopCount log lo hi p := by
  unfold indirectTransmissions
  show lookup0 (indirIter (buildDirect log lo hi) 1 ([], buildDirect log lo hi)).1 p = _
  set direct := buildDirect log lo hi with hdir
  have huD : UniqKeys direct := hdir ▸ uniq_buildDirect log lo hi
  have h1 : indirIter direct 1 ([], direct) =
      (countUp [] (buildThis direct direct), buildThis direct direct) := rfl
  rw [h1]
  unfold lookup0 twoHopCount
  rw [countUp_nil_lookup _ p (uniq_buildThis direct direct),
    buildThis_lookup direct direct p huD, ← hdir]
  cases h : dlookup direct p with
  | none => simp [h]
  | some vs => simp [h]

/-- Claim C3, counterexample: on the log A->B, B->C (both in range, degrees = 2)
the code scores B with 0 while B has one direct destination, so the claimed
degree-1 value is 1. -/
theorem C3_counterexample :
    lookup0 (indirectTransmissions [⟨"A", "B", 1⟩, ⟨"B", "C", 1⟩] 2 0 (some 10)) ("B") = 0 ∧
      degreeOneCount [⟨"A", "B", 1⟩, ⟨"B", "C", 1⟩] 0 (some 10) ("B") = 1 := by
  constructor <;> decide

/-! ### Key-set characterizations (claim C5) -/

theorem directStep_mem (lo : ℚ) (hi : Option ℚ) (m : List (String × ℕ)) (r : TRec)
    (p : String) :
    dmem (directStep lo hi m r) p = (dmem m p ||
      (!skipTime lo hi r.t && !decide (pyStrip r.u = ("")) &&
        !decide (pyStrip r.u = ("None")) && decide (pyStrip r.u = p))) := by
  unfold directStep
  by_cases hs : skipTime lo hi r.t
  · simp [hs]
  · by_cases hg : pyStrip r.u = ("") ∨ pyStrip r.u = ("None")
    · rcases hg with hg | hg <;> simp [hs, hg]
    · push_neg at hg
      rw [if_neg hs, if_neg (not_or.mpr hg), dmem_dupdate, dmem_ensure]
      simp [hs, hg.1, hg.2]

theorem direct_fold_mem (log : List TRec) (lo : ℚ) (hi : Option ℚ) (p : String) :
    ∀ m, dmem (log.foldl (directStep lo hi) m) p = (dmem m p ||
      log.any (fun r => !skipTime lo hi r.t && !decide (pyStrip r.u = ("")) &&
        !decide (pyStrip r.u = ("None")) && decide (pyStrip r.u = p))) := by
  induction log with
  | nil => intro m; simp
  | cons r rest ih =>
      intro m
      rw [List.foldl_cons, ih, directStep_mem, List.any_cons, Bool.or_assoc]

theorem adjStep_mem (lo : ℚ) (hi : Option ℚ) (m : List (String × List String)) (r : TRec)
    (p : String) :
    dmem (adjStep lo hi m r) p = (dmem m p ||
      (!skipTime lo hi r.t && !decide (pyStrip r.u = ("None")) &&
        (decide (pyStrip r.u = p) || decide (pyStrip r.v = p)))) := by
  unfold adjStep
  by_cases hs : skipTime lo hi r.t
  · simp [hs]
  · by_cases hg : pyStrip r.u = ("None")
    · simp [hs, hg]
    · rw [if_neg hs, if_neg hg, dmem_dupdate, dmem_ensure, dmem_ensure]
      simp [hs, hg, Bool.or_assoc]

theorem adj_fold_mem (log : List TRec) (lo : ℚ) (hi : Option ℚ) (p : String) :
    ∀ m, dmem (log.foldl (adjStep lo hi) m) p = (dmem m p ||
      log.any (fun r => !skipTime lo hi r.t && !decide (pyStrip r.u = ("None")) &&
        (decide (pyStrip r.u = p) || decide (pyStrip r.v = p)))) := by
  induction log with
  | nil => intro m; simp
  | cons r rest ih =>
      intro m
      rw [List.foldl_cons, ih, adjStep_mem, List.any_cons, Bool.or_assoc]

theorem buildDirect_mem (log : List TRec) (lo : ℚ) (hi : Option ℚ) (p : String) :
    dmem (buildDirect log lo hi) p =
      log.any (fun r => !skipTime lo hi r.t && !decide (pyStrip r.u = ("None")) &&
        (decide (pyStrip r.u = p) || decide (pyStrip r.v = p))) := by
  unfold buildDirect
  rw [adj_fold_mem]
  simp [dmem, dlookup]

theorem contactStep_mem (m : List (String × ℕ)) (r : CRec) (p : String) :
    dmem (contactStep m r) p = (dmem m p ||
      (!contactIsHeader r && !decide (pyStrip r.u = ("None")) &&
        (decide (pyStrip r.v = p) || decide (r.t = p)))) := by
  unfold contactStep
  by_cases hh : contactIsHeader r
  · simp [hh]
  · by_cases hg : pyStrip r.u = ("None")
    · simp [hh, hg]
    · rw [if_neg (by simpa using hh), if_neg hg, dmem_dupdate, dmem_dupdate,
        dmem_ensure, dmem_ensure]
      simp [hh, hg, Bool.or_assoc]

theorem contacts_fold_mem (clog : List CRec) (p : String) :
    ∀ m, dmem (clog.foldl contactStep m) p = (dmem m p ||
      clog.any (fun r => !contactIsHeader r && !decide (pyStrip r.u = ("None")) &&
        (decide (pyStrip r.v = p) || decide (r.t = p)))) := by
  induction clog with
  | nil => intro m; simp
  | cons r rest ih =>
      intro m
      rw [List.foldl_cons, ih, contactStep_mem, List.any_cons, Bool.or_assoc]

theorem countStep_mem (a : List (String × ℕ)) (kv : String × List String) (p : String) :
    dmem (countStep a kv) p = (dmem a p || decide (kv.1 = p)) := by
  unfold countStep
  rw [dmem_dupdate, dmem_ensure]

theorem thisStep_mem (direct a : List (String × List String)) (kv : String × List String)
    (p : String) :
    dmem (thisStep direct a kv) p = (dmem a p || decide (kv.1 = p)) := by
  rw [thisStep_shape, dmem_dupdate, dmem_ensure]

theorem dmem_eq_any {α : Type} (m : List (String × α)) (p : String) :
    dmem m p = m.any (fun kv => decide (kv.1 = p)) := by
  induction m with
  | nil => simp [dmem, dlookup]
  | cons kv rest ih =>
      by_cases h : kv.1 = p <;> simp [dmem, dlookup, h] at ih ⊢
      · exact ih

theorem buildThis_mem (direct last : List (String × List String)) (p : String) :
    dmem (buildThis direct last) p = dmem last p := by
  unfold buildThis
  have hfold : ∀ acc, dmem (last.foldl (thisStep direct) acc) p =
      (dmem acc p || last.any (fun kv => decide (kv.1 = p))) := by
    induction last with
    | nil => intro acc; simp
    | cons kv rest ih =>
        intro acc
        rw [List.foldl_cons, ih, thisStep_mem, Bool.or_assoc, List.any_cons]
  rw [hfold]
  simp only [dmem, dlookup, Option.isSome_none, Bool.false_or]
  exact (dmem_eq_any last p).symm

theorem countUp_mem (ni : List (String × ℕ)) (td : List (String × List String)) (p : String) :
    dmem (countUp ni td) p = (dmem ni p || dmem td p) := by
  unfold countUp
  have hfold : ∀ acc, dmem (td.foldl countStep acc) p =
      (dmem acc p || td.any (fun kv => decide (kv.1 = p))) := by
    induction td with
    | nil => intro acc; simp
    | cons kv rest ih =>
        intro acc
        rw [List.foldl_cons, ih, countStep_mem, Bool.or_assoc, List.any_cons]
  rw [hfold, dmem_eq_any td]

theorem indirIter_mem (direct : List (String × List String)) (p : String) :
    ∀ (n : ℕ) (ni : List (String × ℕ)) (last : List (String × List String)),
      dmem (indirIter direct n (ni, last)).1 p =
        (dmem ni p || (decide (n ≠ 0) && dmem last p)) := by
  intro n
  induction n with
  | zero => intro ni last; simp [indirIter]
  | succ k ih =>
      intro ni last
      show dmem (indirIter direct k
        (countUp ni (buildThis direct last), buildThis direct last)).1 p = _
      rw [ih, countUp_mem, buildThis_mem]
      cases hni : dmem ni p <;> cases hl : dmem last p <;> simp

theorem indirect_mem (log : List TRec) (lo : ℚ) (hi : Option ℚ) (p : String) (d : ℕ)
    (hd : 2 ≤ d) :
    dmem (indirectTransmissions log d lo hi) p = dmem (buildDirect log lo hi) p := by
  unfold indirectTransmissions
  obtain ⟨k, hk⟩ : ∃ k, d - 1 = k + 1 := ⟨d - 2, by omega⟩
  rw [hk, indirIter_mem]
  simp [dmem, dlookup]

/-- Claim C5, amended: for the direct-count metric every ScoreMap key is indeed
a non-empty, non-None identifier and the key set is exactly the individuals
observed as stripped sources of in-range records; but for the indirect-count
metric (any degrees >= 2) the key set is the stripped sources AND destinations
of in-range records with non-None source, so a key may equal the empty string
or the sentinel None when such a value occurs as a destination; for the
contact-count metric the keys are the stripped second field and the raw third
field of every non-header record whose stripped first field is not None (the
time bounds are ignored). -/
theorem C5_scoremap_keys (log : List TRec) (clog : List CRec) (lo : ℚ) (hi : Option ℚ)
    (p : String) :
    (dmem (directTransmissions log lo hi) p = true ↔
      ∃ r, r ∈ log ∧ skipTime lo hi r.t = false ∧ pyStrip r.u = p ∧
        p ≠ ("") ∧ p ≠ ("None")) ∧
    (∀ d : ℕ, 2 ≤ d → (dmem (indirectTransmissions log d lo hi) p = true ↔
      ∃ r, r ∈ log ∧ skipTime lo hi r.t = false ∧ pyStrip r.u ≠ ("None") ∧
        (pyStrip r.u = p ∨ pyStrip r.v = p))) ∧
    (dmem (numContacts clog lo hi) p = true ↔
      ∃ r, r ∈ clog ∧ contactIsHeader r = false ∧ pyStrip r.u ≠ ("None") ∧
        (pyStrip r.v = p ∨ r.t = p)) := by
  refine ⟨?_, ?_, ?_⟩
  · unfold directTransmissions
    rw [direct_fold_mem]
    simp only [dmem, dlookup, Option.isSome_none, Bool.false_or, List.any_eq_true,
      Bool.and_eq_true, Bool.not_eq_true', decide_eq_true_eq, decide_eq_false_iff_not]
    constructor
    · rintro ⟨r, hr, ⟨⟨hs, he⟩, hn⟩, hp⟩
      exact ⟨r, hr, hs, hp, fun hc => he (hp.trans hc), fun hc => hn (hp.trans hc)⟩
    · rintro ⟨r, hr, hs, hp, he, hn⟩
      exact ⟨r, hr, ⟨⟨hs, fun hc => he (hp.symm.trans hc)⟩,
        fun hc => hn (hp.symm.trans hc)⟩, hp⟩
  · intro d hd
    rw [indirect_mem log lo hi p d hd, buildDirect_mem]
    simp only [List.any_eq_true, Bool.and_eq_true, Bool.not_eq_true', decide_eq_true_eq,
      decide_eq_false_iff_not, Bool.or_eq_true]
    constructor
    · rintro ⟨r, hr, ⟨hs, hn⟩, hor⟩
      exact ⟨r, hr, hs, hn, hor⟩
    · rintro ⟨r, hr, hs, hn, hor⟩
      exact ⟨r, hr, ⟨hs, hn⟩, hor⟩
  · unfold numContacts
    rw [contacts_fold_mem]
    simp only [dmem, dlookup, Option.isSome_none, Bool.false_or, List.any_eq_true,
      Bool.and_eq_true, Bool.not_eq_true', decide_eq_true_eq, decide_eq_false_iff_not,
      Bool.or_eq_true]
    constructor
    · rintro ⟨r, hr, ⟨hh, hn⟩, hor⟩
      exact ⟨r, hr, hh, hn, hor⟩
    · rintro ⟨r, hr, hh, hn, hor⟩
      exact ⟨r, hr, ⟨hh, hn⟩, hor⟩

/-- Claim C5, counterexample: a record whose destination field is the literal
None makes the string None a key of the indirect-count ScoreMap, refuting the
claim that every key differs from the sentinel. -/
theorem C5_counterexample :
    dmem (indirectTransmissions [⟨"A", "None", 1⟩] 2 0 (some 10)) ("None") = true := by
  decide

/-- Witness for C5_scoremap_keys at a concrete input: B, observed only as a
destination, is a key of the degrees-2 indirect-count map. -/
theorem C5_witness :
    dmem (indirectTransmissions [⟨"A", "B", 1⟩] 2 0 (some 10)) ("B") = true := by
  have h := (C5_scoremap_keys [⟨"A", "B", 1⟩] [] 0 (some 10) ("B")).2.1 2 (by norm_num)
  exact h.mpr ⟨⟨"A", "B", 1⟩, by decide, by decide, by decide, Or.inr (by decide)⟩

/-! ### Claim C10: None-source contact lines are skipped entirely -/

theorem contactStep_skip (m : List (String × ℕ)) (r : CRec)
    (hh : contactIsHeader r = false) (hn : pyStrip r.u = ("None")) :
    contactStep m r = m := by
  simp [contactStep, hh, hn]

theorem contactInfectStep_skip (d m : List (String × ℕ)) (r : CRec)
    (hh : contactIsHeader r = false) (hn : pyStrip r.u = ("None")) :
    contactInfectStep d m r = m := by
  simp [contactInfectStep, hh, hn]

/-- Claim C10: in both contact-reading metrics, a non-header contact record
whose stripped first field equals the literal None contributes nothing: the
score map computed with the record present equals the one computed with it
removed, so neither named participant gains or changes an entry through it. -/
theorem C10_none_contact_skipped (tlog : List TRec) (c1 c2 : List CRec) (r : CRec)
    (lo : ℚ) (hi : Option ℚ) (hh : contactIsHeader r = false)
    (hn : pyStrip r.u = ("None")) :
    numContacts (c1 ++ r :: c2) lo hi = numContacts (c1 ++ c2) lo hi ∧
      numContactInfect tlog (c1 ++ r :: c2) lo hi = numContactInfect tlog (c1 ++ c2) lo hi := by
  constructor
  · unfold numContacts
    rw [List.foldl_append, List.foldl_append, List.foldl_cons, contactStep_skip _ _ hh hn]
  · show (c1 ++ r :: c2).foldl (contactInfectStep (buildNumInfected tlog lo hi)) [] =
      (c1 ++ c2).foldl (contactInfectStep (buildNumInfected tlog lo hi)) []
    rw [List.foldl_append, List.foldl_append, List.foldl_cons,
      contactInfectStep_skip _ _ _ hh hn]

/-- Witness for C10_none_contact_skipped at a concrete record. -/
theorem C10_witness :
    numContacts ([] ++ (⟨"None", "A", "B", "1", "1"⟩ : CRec) :: []) 0 none =
        numContacts ([] ++ []) 0 none ∧
      numContactInfect [] ([] ++ (⟨"None", "A", "B", "1", "1"⟩ : CRec) :: []) 0 none =
        numContactInfect [] ([] ++ []) 0 none :=
  C10_none_contact_skipped [] [] [] ⟨"None", "A", "B", "1", "1"⟩ 0 none (by decide) (by decide)

/-- Claim C8, amended: the Rank Matcher emits exactly one entry per input line
(preserving order and duplicates) and never fails; the emitted value is the
mapped score as formatted for output (unchanged up to 6-decimal %f rounding for
metric 2, truncated to an integer by %d for every other metric) and 0 when the
identifier is absent. -/
theorem C8_match_shape (d : List (String × ℚ)) (order : List String) (metric : ℤ) :
    (matchInfectorCounts d order metric).length = order.length ∧
      matchInfectorCounts d order metric = order.map (fun line =>
        match dlookup d (pyStrip line) with
        | some c => (pyStrip line, if metric = 2 then fmt6 c else ((pyInt c : ℤ) : ℚ))
        | none => (pyStrip line, (0 : ℚ))) := by
  have hmap : matchInfectorCounts d order metric = order.map (fun line =>
      match dlookup d (pyStrip line) with
      | some c => (pyStrip line, if metric = 2 then fmt6 c else ((pyInt c : ℤ) : ℚ))
      | none => (pyStrip line, (0 : ℚ))) := by
    induction order with
    | nil => rfl
    | cons line rest ih =>
        show (match dlookup d (pyStrip line) with
          | some c =>
              if metric = 2 then (pyStrip line, fmt6 c) else (pyStrip line, ((pyInt c : ℤ) : ℚ))
          | none => (pyStrip line, 0)) :: matchInfectorCounts d rest metric = _
        rw [List.map_cons, ih]
        congr 1
        cases h : dlookup d (pyStrip line) with
        | none => simp
        | some c => by_cases hm : metric = 2 <;> simp [hm]
  exact ⟨by rw [hmap, List.length_map], hmap⟩

/-- Claim C8, counterexample: with the ScoreMap sending A to 5/2 and a
non-trend metric, the emitted entry for A carries 2 (the %d truncation), not
the mapped score 5/2. -/
theorem C8_counterexample :
    twoPointFive = 5/2 ∧
      matchInfectorCounts [("A", twoPointFive)] [("A" : String)] 1 =
        [(("A" : String), (2 : ℚ))] ∧
      twoPointFive ≠ (2 : ℚ) := by
  refine ⟨?_, by decide, by decide⟩
  have h := Rat.num_div_den twoPointFive
  rw [show twoPointFive.num = (5 : ℤ) from rfl, show twoPointFive.den = (2 : ℕ) from rfl] at h
  rw [← h]
  norm_num

/-- Claim C4, amended: invoked on an empty score sequence, calculateTauB does
not fail; it builds an empty ideal ordering, calls kendalltau on the two empty
sequences and returns (writes) whatever that call yields. -/
theorem C4_tau_empty_returns (R : Type) (kendalltau : List ℚ → List ℚ → R)
    (reverse : Bool) :
    calculateTauB kendalltau [] reverse = Except.ok (kendalltau [] []) := by
  cases reverse <;> rfl

/-- Claim C4, counterexample: at the concrete empty input the evaluator
produces an ok result and no EmptyInput error. -/
theorem C4_counterexample :
    calculateTauB ktStub [] false = Except.ok ((0 : ℚ), (0 : ℚ)) ∧
      isEmptyInputErr (calculateTauB ktStub [] false) = false :=
  ⟨rfl, rfl⟩

theorem bfLatest_some (log : List TRec) (lo b : ℚ) : bfLatest log lo (some b) = b := by
  unfold bfLatest bfScan
  have h : ∀ st : List (String × List ℚ) × ℚ, st.2 = b →
      (log.foldl (bfStep lo (some b)) st).2 = b := by
    induction log with
    | nil => intro st h; exact h
    | cons r rest ih =>
        intro st h
        rw [List.foldl_cons]
        apply ih
        unfold bfStep
        by_cases hs : skipTime lo (some b) r.t
        · simpa [hs] using h
        · by_cases hg : pyStrip r.u = ("None")
          · simpa [hs, hg] using h
          · simpa [hs, hg] using h
  exact h ([], bfInit (some b)) rfl

theorem bfLatest_none (log : List TRec) (lo : ℚ) : bfLatest log lo none = specLatest log lo := by
  unfold bfLatest bfScan specLatest
  have h : ∀ st : List (String × List ℚ) × ℚ, (log.foldl (bfStep lo none) st).2 =
      ((log.filter (fun r => !skipTime lo none r.t &&
        !decide (pyStrip r.u = ("None")))).map (fun r => r.t)).foldl max st.2 := by
    induction log with
    | nil => intro st; simp
    | cons r rest ih =>
        intro st
        rw [List.foldl_cons, List.filter_cons]
        by_cases hs : skipTime lo none r.t
        · have hcond : ¬ ((!skipTime lo none r.t && !decide (pyStrip r.u = ("None"))) = true) := by
            simp [hs]
          have hstep : bfStep lo none st r = st := by simp [bfStep, hs]
          rw [if_neg hcond, hstep, ih]
        · by_cases hg : pyStrip r.u = ("None")
          · have hcond : ¬ ((!skipTime lo none r.t &&
                !decide (pyStrip r.u = ("None"))) = true) := by
              simp [hg]
            have hstep : bfStep lo none st r = st := by simp [bfStep, hs, hg]
            rw [if_neg hcond, hstep, ih]
          · have hcond : (!skipTime lo none r.t && !decide (pyStrip r.u = ("None"))) = true := by
              simp [hs, hg]
            have hstep : (bfStep lo none st r).2 = max st.2 r.t := by
              by_cases hcmp : r.t > st.2
              · have hc : (none = (none : Option ℚ) ∧ r.t > st.2) := ⟨rfl, hcmp⟩
                simp [bfStep, hs, hg, hc, max_eq_right hcmp.le]
              · push_neg at hcmp
                have hc : ¬ (none = (none : Option ℚ) ∧ r.t > st.2) := by
                  rintro ⟨-, h2⟩
                  exact absurd h2 (not_lt.mpr hcmp)
                simp only [bfStep, if_neg hs, if_neg hg]
                rw [if_neg (fun hand => absurd hand.2 (not_lt.mpr hcmp))]
                exact (max_eq_left hcmp).symm
            rw [if_pos hcond, List.map_cons, List.foldl_cons, ih, hstep]
  rw [h ([], bfInit none)]
  rfl

theorem segsFrom_ne_nil (latest t : ℚ) (ts : List ℚ) : segsFrom latest t ts ≠ [] := by
  cases ts <;> simp [segsFrom]

theorem getLast?_cons_of_ne_nil {α : Type} (a : α) (l : List α) (h : l ≠ []) :
    (a :: l).getLast? = l.getLast? := by
  cases l with
  | nil => exact absurd rfl h
  | cons b m => exact List.getLast?_cons_cons

theorem segsFrom_last (latest : ℚ) (t : ℚ) (ts : List ℚ) (tl : ℚ)
    (h : (t :: ts).getLast? = some tl) :
    (segsFrom latest t ts).getLast? = some (tl, latest) := by
  induction ts generalizing t with
  | nil =>
      simp only [List.getLast?_singleton, Option.some.injEq] at h
      subst h
      rfl
  | cons t2 rest ih =>
      have h2 : (t2 :: rest).getLast? = some tl := by
        rwa [List.getLast?_cons_cons] at h
      have htail := ih t2 h2
      show ((t, t2) :: segsFrom latest t2 rest).getLast? = some (tl, latest)
      rw [getLast?_cons_of_ne_nil _ _ (segsFrom_ne_nil latest t2 rest)]
      exact htail

/-- Claim C9, amended: for every individual with an in-range times list, the
final sampled segment runs from their last in-range transmission time (in log
order) to the explicit upper bound when one was given, and otherwise to the
maximum in-range time among records with non-None source (floored at -1) - not
to the greatest in-bounds time across the whole log, since the None-source
skip precedes the latest-time update. -/
theorem C9_final_segment (log : List TRec) (lo : ℚ) (hi : Option ℚ) (u : String)
    (ts : List ℚ) (tl : ℚ) (hts : dlookup (bfTimes log lo hi) u = some ts)
    (hlast : ts.getLast? = some tl) :
    (bfSegments log lo hi u).getLast? = some (tl, upperEndpoint log lo hi) := by
  unfold bfSegments
  rw [hts]
  cases ts with
  | nil => simp at hlast
  | cons t0 rest =>
      have hL : bfLatest log lo hi = upperEndpoint log lo hi := by
        cases hi with
        | none => exact bfLatest_none log lo
        | some b => exact bfLatest_some log lo b
      show ((lo, t0) :: segsFrom (bfLatest log lo hi) t0 rest).getLast? = _
      rw [getLast?_cons_of_ne_nil _ _ (segsFrom_ne_nil (bfLatest log lo hi) t0 rest),
        segsFrom_last (bfLatest log lo hi) t0 rest tl hlast, hL]

/-- Claim C9, counterexample: with no explicit upper bound, on the log A->B at
time 1 followed by None->C at time 5 (both in bounds), A's final segment ends
at 1 while the greatest in-bounds time across the whole log is 5: the
None-source record is skipped before the latest-time update. -/
theorem C9_counterexample :
    (bfSegments [⟨"A", "B", 1⟩, ⟨"None", "C", 5⟩] 0 none ("A")).getLast? =
        some ((1 : ℚ), (1 : ℚ)) ∧
      claimGlobalLatest [⟨"A", "B", 1⟩, ⟨"None", "C", 5⟩] 0 none = some (5 : ℚ) := by
  constructor <;> decide

/-- Witness for C9_final_segment at a concrete input. -/
theorem C9_witness :
    (bfSegments [⟨"A", "B", (1 : ℚ)⟩] 0 none ("A")).getLast? = some ((1 : ℚ), (1 : ℚ)) := by
  have h := C9_final_segment [⟨"A", "B", (1 : ℚ)⟩] 0 none ("A") [1] 1 (by decide) (by decide)
  rw [h]
  decide

/-- Claim C6, amended: the MissingInput check fires, before any scoring, exactly
when the selector is numerically equal to one of 1, 2, 3, 4, 6 and the
transmission log is missing (naming the transmission argument), or equal to 5
or 6 and the contact network is missing (naming the contact argument);
fractional selectors such as 2.5 are in the dispatchable set via int(metric)
but bypass both checks. -/
theorem C6_missing_input_checks (slopeO : SlopeOracle) (cn : Option (List CRec))
    (lo : ℚ) (hi : Option ℚ) (metric : ℚ) :
    ((metric = 1 ∨ metric = 2 ∨ metric = 3 ∨ metric = 4 ∨ metric = 6) →
      pairCounts slopeO none cn lo hi metric =
        Except.error (PCErr.missingTransmission metric)) ∧
    (∀ th : Option (List TRec), (metric = 5 ∨ (metric = 6 ∧ th ≠ none)) →
      pairCounts slopeO th none lo hi metric =
        Except.error (PCErr.missingContact metric)) := by
  constructor
  · intro h
    unfold pairCounts
    rw [if_pos ⟨h, rfl⟩]
  · intro th h
    unfold pairCounts
    rcases h with rfl | ⟨rfl, hth⟩
    · have hc1 : ¬ (((5 : ℚ) = 1 ∨ (5 : ℚ) = 2 ∨ (5 : ℚ) = 3 ∨ (5 : ℚ) = 4 ∨ (5 : ℚ) = 6) ∧
          th = none) := by
        rintro ⟨(h | h | h | h | h), -⟩ <;> norm_num at h
      rw [if_neg hc1, if_pos ⟨Or.inl rfl, rfl⟩]
    · have hc1 : ¬ (((6 : ℚ) = 1 ∨ (6 : ℚ) = 2 ∨ (6 : ℚ) = 3 ∨ (6 : ℚ) = 4 ∨ (6 : ℚ) = 6) ∧
          th = none) := by
        rintro ⟨-, hnone⟩
        exact hth hnone
      rw [if_neg hc1, if_pos ⟨Or.inr rfl, rfl⟩]

/-- Claim C6, counterexample: selector 2.5 (metric 2 with five points per
segment, inside the supported set via int(metric) == 2) with the transmission
log missing bypasses both checks and fails opening the absent file instead of
raising MissingInput before scoring. -/
theorem C6_counterexample :
    pairCounts stubSlope none none 0 none twoPointFive = Except.error PCErr.fileNotFound ∧
      isMissingInputErr (pairCounts stubSlope none none 0 none twoPointFive) = false := by
  constructor <;> decide

/-- Witness for C6_missing_input_checks at the concrete selector 2 with the
transmission log missing. -/
theorem C6_witness :
    pairCounts stubSlope none none 0 none 2 = Except.error (PCErr.missingTransmission 2) :=
  (C6_missing_input_checks stubSlope none 0 none 2).1 (Or.inr (Or.inl rfl))
